import Mathlib

/-!
Verification development for the GSA aws-terraform-executor Lambda.

The Go program (lambda/app/app.go, lambda/app/setup.go) is shallowly embedded
below.  Pure computations (URL normalization, module scanning, environment
assembly, backend-file generation, line splitting) are translated directly as
Lean functions on `String` / `List Char`.  Effectful steps (AWS calls, git
clones, subprocess runs) are abstracted by outcome oracles: a `GoErr` value
(`none` = nil error, `some e` = error `e`), supplied per call site, with the
control flow of the Go code reproduced exactly.  All definitions are
executable.
-/

set_option maxRecDepth 4096

namespace ATE

/-- Go error results: `none` models a nil error, `some e` an error message. -/
abbrev GoErr := Option String

/-- GoValue models the dynamically-typed values held in
`Request.Variables map[string]interface{}`.  The five cases mirror the type
switch in `getEnv` (app.go 420-443): bool, string, int64, float64 and
map[string]interface{}.  A float64 is modelled as a scaled decimal
(value = mantissa / 10^6), which is what the `%f` rendering of the code
exposes. -/
inductive GoValue where
  | boolV (b : Bool)
  | strV (s : String)
  | intV (i : Int)
  | floatV (mantissa : Int)
  | objV (fields : List (String × GoValue))

/-- Request mirrors the Go struct `app.Request` (app.go 42-48). -/
structure Request where
  id : String
  name : String
  version : String
  logLevel : String
  vars : List (String × GoValue)

/-- Outcomes of the effectful calls made by `App.Run` (app.go 83-116):
the result of `a.dispatch` on a given payload, of `a.prepTf`, and of each
per-request `a.execute`. -/
structure RunEnv where
  dispatchErr : List Request → GoErr
  prepErr : GoErr
  execErr : Request → GoErr

/-- Observable trace of one `App.Run` call: the payload handed to
`a.dispatch` (if any), the requests whose `a.execute` was started locally,
the per-job failures that were logged, and the value Run returned. -/
structure RunTrace where
  fanout : Option (List Request)
  executed : List Request
  logged : List (String × String)
  result : GoErr

/-- The per-job log lines produced by the goroutines of app.go 100-111:
`a.execute` failures are logged as (req.Name, err) pairs, never returned. -/
def localLog (env : RunEnv) (reqs : List Request) : List (String × String) :=
  reqs.filterMap (fun r => (env.execErr r).map (fun e => (r.name, e)))

/-- Run embeds `App.Run` (app.go 83-116): `end := len(requests)`; when
`end > cpus` it is clamped to `cpus` and `requests[cpus:]` is dispatched
(a dispatch error returns immediately); then `prepTf` runs (an error returns
immediately); then `requests[:end]` are executed concurrently, each failure
only logged, and Run returns nil. -/
def Run (cpus : Nat) (env : RunEnv) (requests : List Request) : RunTrace :=
  if requests.length > cpus then
    match env.dispatchErr (requests.drop cpus) with
    | some e => ⟨some (requests.drop cpus), [], [], some e⟩
    | none =>
      match env.prepErr with
      | some e => ⟨some (requests.drop cpus), [], [], some e⟩
      | none =>
        ⟨some (requests.drop cpus), requests.take cpus,
          localLog env (requests.take cpus), none⟩
  else
    match env.prepErr with
    | some e => ⟨none, [], [], some e⟩
    | none =>
      ⟨none, requests.take requests.length,
        localLog env (requests.take requests.length), none⟩

/-- The effectful steps of `App.execute` (app.go 154-223), in program order.
`startInit`/`waitInit` are the `runTf(..., "init", ...)` call and its
`Wait()`; `startApply`/`waitApply` likewise for the apply step. -/
inductive Step where
  | checkout | getCreds | createBackendF | assumeRole | mkPluginDir | mkModDir
  | getModulesS | createGitConfig | startInit | waitInit | startApply | waitApply
deriving DecidableEq

/-- The sequence of effectful steps of `App.execute`, in source order. -/
def executeSteps : List Step :=
  [.checkout, .getCreds, .createBackendF, .assumeRole, .mkPluginDir, .mkModDir,
   .getModulesS, .createGitConfig, .startInit, .waitInit, .startApply, .waitApply]

/-- Runs the steps in order, stopping at (and returning) the first error;
the first component is the trace of steps actually attempted. -/
def executeAux (err : Step → GoErr) : List Step → List Step → List Step × GoErr
  | done, [] => (done, none)
  | done, s :: rest =>
    match err s with
    | some e => (done ++ [s], some e)
    | none => executeAux err (done ++ [s]) rest

/-- execute embeds `App.execute` (app.go 154-223): every step's error is
returned immediately, aborting all later steps. -/
def execute (err : Step → GoErr) : List Step × GoErr :=
  executeAux err [] executeSteps

/-- The steps of `App.execute` that precede the terraform init invocation. -/
def stepsBeforeInit : List Step :=
  [.checkout, .getCreds, .createBackendF, .assumeRole, .mkPluginDir, .mkModDir,
   .getModulesS, .createGitConfig]

/-- C1: For every request batch, Run partitions it exactly at the compute
capacity: when `len(requests) > cpus`, exactly `requests[cpus:]` (in original
order) is handed to the fan-out dispatch and exactly `requests[:cpus]` are
executed locally; when `len(requests) <= cpus`, no fan-out hand-off occurs and
all requests run locally. -/
theorem Run_partitions_at_capacity (cpus : Nat) (env : RunEnv)
    (requests : List Request)
    (hdisp : env.dispatchErr (requests.drop cpus) = none)
    (hprep : env.prepErr = none) :
    (requests.length > cpus →
      (Run cpus env requests).fanout = some (requests.drop cpus) ∧
      (Run cpus env requests).executed = requests.take cpus) ∧
    (requests.length ≤ cpus →
      (Run cpus env requests).fanout = none ∧
      (Run cpus env requests).executed = requests) := by
  unfold Run
  constructor
  · intro h
    rw [if_pos h, hdisp, hprep]
    exact ⟨rfl, rfl⟩
  · intro h
    rw [if_neg (by omega), hprep]
    simp

/-- Concrete requests used by witnesses. -/
def reqA : Request := ⟨"1", "a", "v1", "", []⟩

/-- Concrete requests used by witnesses. -/
def reqB : Request := ⟨"2", "b", "v1", "", []⟩

/-- Concrete requests used by witnesses. -/
def reqC : Request := ⟨"3", "c", "v1", "", []⟩

/-- A RunEnv in which every effectful call succeeds. -/
def envOK : RunEnv := ⟨fun _ => none, none, fun _ => none⟩

/-- Witness for C1 at cpus = 2 and a batch of three requests. -/
theorem Run_partitions_at_capacity_witness :
    (Run 2 envOK [reqA, reqB, reqC]).fanout = some [reqC] ∧
    (Run 2 envOK [reqA, reqB, reqC]).executed = [reqA, reqB] :=
  (Run_partitions_at_capacity 2 envOK [reqA, reqB, reqC] rfl rfl).1
    (by simp)

/-- C2: one local job's failure is only logged: with dispatch and prepTf
succeeding, Run's result is nil regardless of per-job execute outcomes, the
set of locally executed requests does not depend on those outcomes (no
cancellation of siblings), and each failure surfaces exactly as a per-job log
entry. -/
theorem Run_isolates_job_failures (cpus : Nat) (env : RunEnv)
    (requests : List Request)
    (hdisp : env.dispatchErr (requests.drop cpus) = none)
    (hprep : env.prepErr = none) :
    (Run cpus env requests).result = none ∧
    (Run cpus env requests).executed =
      (Run cpus ⟨env.dispatchErr, env.prepErr, fun _ => none⟩ requests).executed ∧
    (Run cpus env requests).logged =
      (Run cpus env requests).executed.filterMap
        (fun r => (env.execErr r).map (fun e => (r.name, e))) := by
  by_cases h : requests.length > cpus <;>
    simp [Run, localLog, h, hdisp, hprep]

/-- A RunEnv in which the job named "a" fails and everything else succeeds. -/
def envJobAFails : RunEnv :=
  ⟨fun _ => none, none, fun r => if r.name = "a" then some ("boom") else none⟩

/-- Witness for C2: job "a" fails, yet the batch result is nil, both jobs
ran, and the failure shows up only in the log. -/
theorem Run_isolates_job_failures_witness :
    (Run 2 envJobAFails [reqA, reqB]).result = none ∧
    (Run 2 envJobAFails [reqA, reqB]).executed =
      (Run 2 ⟨envJobAFails.dispatchErr, envJobAFails.prepErr, fun _ => none⟩
        [reqA, reqB]).executed ∧
    (Run 2 envJobAFails [reqA, reqB]).logged =
      (Run 2 envJobAFails [reqA, reqB]).executed.filterMap
        (fun r => (envJobAFails.execErr r).map (fun e => (r.name, e))) :=
  Run_isolates_job_failures 2 envJobAFails [reqA, reqB] rfl rfl

/-- C9 counterexample: on the empty batch Run still runs prepTf (the
terraform download, app.go 95-98 and 138-151); if that fails, Run returns the
error rather than success, refuting "returns success immediately". -/
theorem Run_empty_counterexample :
    (Run 2 ⟨fun _ => none, some ("failed to get terraform"), fun _ => none⟩
      []).result = some ("failed to get terraform") := rfl

/-- C9 amended: for the empty batch Run performs no fan-out hand-off and
starts no job, and it returns success exactly when the terraform-provisioning
step (prepTf) succeeds — a prepTf failure is returned as Run's error. -/
theorem Run_empty_batch (cpus : Nat) (env : RunEnv) :
    (Run cpus env []).fanout = none ∧
    (Run cpus env []).executed = [] ∧
    (Run cpus env []).logged = [] ∧
    (Run cpus env []).result = env.prepErr := by
  unfold Run
  cases h : env.prepErr <;> simp [localLog, h]

/-- C3: the apply subprocess is started only if the init step exited
successfully: with every step before init succeeding, if the init invocation
errors (or init starts but its Wait errors), execute returns that error and
startApply never appears in the trace of attempted steps. -/
theorem execute_skips_apply_on_init_failure (err : Step → GoErr) (e : String)
    (hpre : ∀ s, s ∈ stepsBeforeInit → err s = none)
    (hinit : err .startInit = some e ∨
             (err .startInit = none ∧ err .waitInit = some e)) :
    (execute err).2 = some e ∧ Step.startApply ∉ (execute err).1 := by
  have h1 := hpre .checkout (by simp [stepsBeforeInit])
  have h2 := hpre .getCreds (by simp [stepsBeforeInit])
  have h3 := hpre .createBackendF (by simp [stepsBeforeInit])
  have h4 := hpre .assumeRole (by simp [stepsBeforeInit])
  have h5 := hpre .mkPluginDir (by simp [stepsBeforeInit])
  have h6 := hpre .mkModDir (by simp [stepsBeforeInit])
  have h7 := hpre .getModulesS (by simp [stepsBeforeInit])
  have h8 := hpre .createGitConfig (by simp [stepsBeforeInit])
  rcases hinit with hi | ⟨hi, hw⟩
  · simp [execute, executeSteps, executeAux, h1, h2, h3, h4, h5, h6, h7, h8, hi]
  · simp [execute, executeSteps, executeAux,
      h1, h2, h3, h4, h5, h6, h7, h8, hi, hw]

/-- Step outcomes in which only the init invocation fails. -/
def errInitFails : Step → GoErr :=
  fun s => if s = Step.startInit then some ("init failed") else none

/-- Witness for C3: init fails, execute returns that error and apply is
never started. -/
theorem execute_skips_apply_on_init_failure_witness :
    (execute errInitFails).2 = some ("init failed") ∧
    Step.startApply ∉ (execute errInitFails).1 :=
  execute_skips_apply_on_init_failure errInitFails ("init failed")
    (fun s hs => by fin_cases hs <;> rfl)
    (Or.inl rfl)

/-- firstIdx models Go `strings.Index` on character lists: the first index at
which `pat` occurs in the list, `none` when it does not occur (Go's -1). -/
def firstIdx (pat : List Char) : List Char → Option Nat
  | [] => if pat.isEmpty then some 0 else none
  | c :: cs => if pat.isPrefixOf (c :: cs) then some 0 else (firstIdx pat cs).map (· + 1)

/-- Characters that end the host portion of an authority-form URL. -/
def notSlashQ (c : Char) : Bool := !(c == '/' || c == '?')

/-- Characters before the query separator. -/
def notQ (c : Char) : Bool := c != '?'

/-- GoURL models the fields of net/url.URL that app.go touches. -/
structure GoURL where
  scheme : List Char
  host : List Char
  path : List Char
  rawQuery : List Char
deriving DecidableEq, Repr

/-- parseURL models net/url.Parse for the address shapes the module resolver
meets: `scheme://host/path?query` splits at the first `://`, the host runs to
the first '/' or '?', the path to the first '?'; an address without `://` is
all path (plus query).  Escaping, userinfo and fragments are not modelled;
parse errors (which Go reports for malformed URLs) do not arise in this
character-level subset, so the model is total. -/
def parseURL (s : List Char) : GoURL :=
  match firstIdx (("://").data) s with
  | some n =>
    let rest := s.drop (n + 3)
    ⟨s.take n, rest.takeWhile notSlashQ,
      (rest.dropWhile notSlashQ).takeWhile notQ,
      ((rest.dropWhile notSlashQ).dropWhile notQ).drop 1⟩
  | none =>
    ⟨[], [], s.takeWhile notQ, (s.dropWhile notQ).drop 1⟩

/-- urlString models url.URL.String for the modelled fields. -/
def urlString (u : GoURL) : List Char :=
  (if u.scheme.isEmpty then [] else u.scheme ++ ("://").data) ++ u.host ++ u.path
    ++ (if u.rawQuery.isEmpty then [] else '?' :: u.rawQuery)

/-- The `&`- and `;`-separated components of a raw query (url.ParseQuery as
of Go 1.16, the module's language version). -/
def queryParts (q : List Char) : List (List Char) :=
  (q.splitOn '&').flatMap (fun p => p.splitOn ';')

/-- refOf models `u.Query()["ref"]` followed by taking the first value: the
value of the first `ref=` component of the query, if any. -/
def refOf (q : List Char) : Option (List Char) :=
  ((queryParts q).find?
      (fun p => p.takeWhile (fun c => c != '=') == ("ref").data)).map
    (fun p => (p.dropWhile (fun c => c != '=')).drop 1)

/-- The path truncation of app.go 307-311: drop anything from the first
".git" on. -/
def truncGit (p : List Char) : List Char :=
  match firstIdx ((".git").data) p with
  | some n => p.take n
  | none => p

/-- normalizedSource embeds `normalizedSource` (app.go 294-316): parse the
address, force the scheme to https, capture the first `ref` query value as
the pinned revision, truncate the path at the first ".git", strip the query,
and render the URL back to a string. -/
def normalizedSource (source : List Char) : List Char × List Char :=
  let u0 := parseURL source
  let ref := (refOf u0.rawQuery).getD []
  (urlString ⟨("https").data, u0.host, truncGit u0.path, []⟩, ref)

/-- Element processing of path/filepath.Clean: skip empty and "." elements,
let ".." pop the previous element (kept literally at the start of a relative
path, dropped at the root of an absolute one). -/
def cleanElems (rooted : Bool) : List (List Char) → List (List Char) → List (List Char)
  | stack, [] => stack.reverse
  | stack, e :: rest =>
    if e = [] ∨ e = ['.'] then cleanElems rooted stack rest
    else if e = ['.', '.'] then
      match stack with
      | [] => if rooted then cleanElems rooted [] rest else cleanElems rooted [e] rest
      | top :: stk =>
        if top = ['.', '.'] then cleanElems rooted (e :: stack) rest
        else cleanElems rooted stk rest
    else cleanElems rooted (e :: stack) rest

/-- pathClean models path/filepath.Clean for unix paths. -/
def pathClean (p : List Char) : List Char :=
  if p = [] then ['.']
  else
    let rooted := p.head? == some '/'
    let core := List.intercalate ['/'] (cleanElems rooted [] (p.splitOn '/'))
    if rooted then '/' :: core
    else if core = [] then ['.'] else core

/-- goJoin models path/filepath.Join: drop leading empty elements, join the
rest with '/', and Clean the result (collapsing duplicate separators); all
elements empty yields the empty path. -/
def goJoin (elems : List (List Char)) : List Char :=
  match elems.dropWhile (fun e => e.isEmpty) with
  | [] => []
  | es => pathClean (List.intercalate ['/'] es)

/-- All splits of a text as `pre ++ suf` where `pre` contains no newline,
shortest `pre` first: the candidate extents of a `(.*)` group (whose `.`
cannot cross a newline) anchored at the current position. -/
def splitsNoNl : List Char → List (List Char × List Char)
  | [] => [([], [])]
  | c :: cs =>
    ([], c :: cs) ::
      (if c = '\n' then []
       else (splitsNoNl cs).map (fun p => (c :: p.1, p.2)))

/-- dropLit consumes a literal, failing when it is not a prefix. -/
def dropLit (lit l : List Char) : Option (List Char) :=
  if lit.isPrefixOf l then some (l.drop lit.length) else none

/-- The Go regexp character class \s: [\t\n\f\r ]. -/
def isGoSpace (c : Char) : Bool :=
  c == ' ' || c == '\t' || c == '\n' || c == '\r' || c == '\x0c'

/-- Consumes `\s+` when followed by a non-whitespace literal: at least one
whitespace character, then the maximal run (exact, since a shorter run would
leave a whitespace character where the literal is required). -/
def dropWs1 : List Char → Option (List Char)
  | [] => none
  | c :: cs => if isGoSpace c then some (cs.dropWhile isGoSpace) else none

/-- The trailing `(.*)"` of the pattern: the greedy group runs to the last
quote on the current line; returns the group and the text after that quote. -/
def lastQuoteSplit (l : List Char) : Option (List Char × List Char) :=
  ((splitsNoNl l).reverse.find? (fun p => p.2.head? == some '"')).map
    (fun p => (p.1, p.2.drop 1))

/-- The pattern after group 1's closing quote-space-brace:
`\s+source\s+=\s+"(.*)"`; returns (group 2, text after the match). -/
def matchAfterBrace (l : List Char) : Option (List Char × List Char) :=
  (dropWs1 l).bind fun l1 =>
  (dropLit (("source").data) l1).bind fun l2 =>
  (dropWs1 l2).bind fun l3 =>
  (dropLit (("=").data) l3).bind fun l4 =>
  (dropWs1 l4).bind fun l5 =>
  (dropLit (("\"").data) l5).bind fun l6 =>
  lastQuoteSplit l6

/-- Tries the group-1 candidates longest first (the backtracking order of a
greedy `(.*)`), each one requiring the literal quote-space-brace and then the
rest of the pattern. -/
def pickG1 : List (List Char × List Char) → Option (List Char × List Char × List Char)
  | [] => none
  | (g1, suf) :: rest =>
    match (dropLit (("\" \x7b").data) suf).bind matchAfterBrace with
    | some (g2, r) => some (g1, g2, r)
    | none => pickG1 rest

/-- matchModuleDecl matches the Go regexp of app.go line 326 (literal
`module "`, greedy group 1, quote-space-brace, `\s+source\s+=\s+`, quoted
greedy group 2) anchored at the start of the text, returning the two
submatches and the text after the match. -/
def matchModuleDecl (l : List Char) : Option (List Char × List Char × List Char) :=
  (dropLit (("module \"").data) l).bind fun l1 => pickG1 (splitsNoNl l1).reverse

/-- Scans for non-overlapping matches left to right (Go FindAllStringSubmatch
with n = -1), continuing after the end of each match.  The fuel argument —
initially the text length, an upper bound on the number of scanning steps,
each of which consumes at least one character — makes the recursion
structural. -/
def findAllAux : Nat → List Char → List (List Char × List Char)
  | 0, _ => []
  | _ + 1, [] => []
  | fuel + 1, c :: cs =>
    match matchModuleDecl (c :: cs) with
    | some (g1, g2, rest) => (g1, g2) :: findAllAux fuel rest
    | none => findAllAux fuel cs

/-- All (name, source) module declarations found in an entry file. -/
def findAllModuleDecls (l : List Char) : List (List Char × List Char) :=
  findAllAux l.length l

/-- Module mirrors the Go struct `app.Module` (app.go 318-323); RootDir has
the json tag "-" in Go and is therefore absent from the manifest encoding. -/
structure Module where
  key : List Char
  source : List Char
  dir : List Char
  rootDir : List Char
deriving DecidableEq, Repr

/-- mkModule builds one Module from a regex match (app.go 339-361): Dir
starts as ".terraform/modules/" followed by the key (this is also RootDir)
and, when the source URL's path contains ".git", the sub-path after it is
split on '/', rejoined (collapsing duplicate separators) and appended under
Dir. -/
def mkModule (g1 g2 : List Char) : Module :=
  let dir0 := ((".terraform/modules/").data) ++ g1
  let u := parseURL g2
  let dir :=
    match firstIdx ((".git").data) u.path with
    | some n => goJoin [dir0, goJoin ((u.path.drop (n + 4)).splitOn '/')]
    | none => dir0
  ⟨g1, g2, dir, dir0⟩

/-- readModules embeds `readModules` (app.go 325-365) applied to the entry
file's content: zero regex matches yields the not-found error (whose Go
message also names the offending path); otherwise one Module per match, in
match order. -/
def readModules (content : List Char) : Except String (List Module) :=
  match findAllModuleDecls content with
  | [] => .error ("failed to find a module")
  | ms => .ok (ms.map (fun p => mkModule p.1 p.2))

/-- One checkout (git clone + tag checkout) requested from the Source
Fetcher: clone URL, destination directory, pinned revision. -/
structure CheckoutCall where
  url : List Char
  dest : List Char
  ref : List Char
deriving DecidableEq, Repr

/-- Observable trace of `App.getModules`: the checkout calls issued in
order, the descriptor list written to modules.json (none if never written),
and the returned error. -/
structure ModTrace where
  checkouts : List CheckoutCall
  manifest : Option (List Module)
  result : GoErr
deriving DecidableEq, Repr

/-- The per-module loop of getModules (app.go 268-277): normalize each
source, check it out at Join(modpath, Key), aborting on the first failure. -/
def getModulesLoop (checkoutErr : CheckoutCall → GoErr) (modpath : List Char) :
    List Module → List CheckoutCall → List CheckoutCall × GoErr
  | [], acc => (acc, none)
  | m :: rest, acc =>
    let nr := normalizedSource m.source
    let call : CheckoutCall := ⟨nr.1, goJoin [modpath, m.key], nr.2⟩
    match checkoutErr call with
    | some e => (acc ++ [call], some e)
    | none => getModulesLoop checkoutErr modpath rest (acc ++ [call])

/-- getModules embeds `App.getModules` (app.go 260-292) on the entry file's
content, with `modpath` standing for Join(Dir(path), ".terraform",
"modules"): read the module declarations, clone each module's normalized
source into Join(modpath, Key) at its pinned revision, then write
modules.json holding the Module records; `manifestErr` is the outcome of
creating/encoding modules.json. -/
def getModules (checkoutErr : CheckoutCall → GoErr) (manifestErr : GoErr)
    (modpath content : List Char) : ModTrace :=
  match readModules content with
  | .error e => ⟨[], none, some e⟩
  | .ok modules =>
    match getModulesLoop checkoutErr modpath modules [] with
    | (calls, some e) => ⟨calls, none, some e⟩
    | (calls, none) => ⟨calls, some modules, manifestErr⟩

/-- The module source address of the spec's worked normalization example. -/
def addrC4 : List Char :=
  ("https://example.com/org/repo.git//modules/foo?ref=v2").data

/-- An entry file declaring that address under the module key "foo". -/
def entryC4 : List Char :=
  ("module \"foo\" \x7b\n  source = \"https://example.com/org/repo.git//modules/foo?ref=v2\"\n\x7d\n").data

/-- The descriptor readModules produces for that entry file. -/
def modC4 : Module :=
  ⟨("foo").data, addrC4,
   (".terraform/modules/foo/modules/foo").data,
   (".terraform/modules/foo").data⟩

/-- C4: normalizing https://example.com/org/repo.git//modules/foo?ref=v2
yields address https://example.com/org/repo pinned at revision v2, and the
descriptor read from an entry file declaring it under key "foo" records the
checkout path .terraform/modules/foo/modules/foo — the sub-path after the
.git boundary preserved under the module's base directory with duplicate
separators collapsed — next to RootDir .terraform/modules/foo. -/
theorem normalizedSource_example_address :
    normalizedSource addrC4
      = ((("https://example.com/org/repo").data), (("v2").data)) ∧
    readModules entryC4 = .ok [modC4] :=
  ⟨by decide, rfl⟩

/-- C5: an entry file in which the module regex finds zero declarations
makes resolution fail with the not-found error before any checkout is
attempted: no fetch calls, no manifest. -/
theorem getModules_no_declarations (checkoutErr : CheckoutCall → GoErr)
    (manifestErr : GoErr) (modpath content : List Char)
    (h : findAllModuleDecls content = []) :
    getModules checkoutErr manifestErr modpath content
      = ⟨[], none, some ("failed to find a module")⟩ := by
  simp [getModules, readModules, h]

/-- Witness for C5 on an entry file with no module declaration. -/
theorem getModules_no_declarations_witness :
    getModules (fun _ => none) none ((".terraform/modules").data)
        (("x = 1\n").data)
      = ⟨[], none, some ("failed to find a module")⟩ :=
  getModules_no_declarations _ _ _ _ (by decide)

/-- With every checkout succeeding, the loop issues one call per module in
order, each cloning the normalized source into Join(modpath, Key). -/
theorem getModulesLoop_all_ok (modpath : List Char) (ms : List Module)
    (acc : List CheckoutCall) :
    getModulesLoop (fun _ => none) modpath ms acc
      = (acc ++ ms.map (fun m =>
          ⟨(normalizedSource m.source).1, goJoin [modpath, m.key],
            (normalizedSource m.source).2⟩), none) := by
  induction ms generalizing acc with
  | nil => simp [getModulesLoop]
  | cons m rest ih => simp [getModulesLoop, ih]

/-- C10: every resolved module is cloned into Join(modpath, Key) — the root
checkout directory — never into the sub-path-adjusted Dir; the post-.git
sub-path appears only in the Dir recorded in the modules.json manifest.
With all checkouts succeeding, the checkout calls are exactly one per
module, in order, each with destination Join(modpath, Key), and the manifest
holds the unmodified descriptor list. -/
theorem getModules_clones_at_root (manifestErr : GoErr)
    (modpath content : List Char) (modules : List Module)
    (hok : readModules content = .ok modules) :
    getModules (fun _ => none) manifestErr modpath content
      = ⟨modules.map (fun m =>
            ⟨(normalizedSource m.source).1, goJoin [modpath, m.key],
              (normalizedSource m.source).2⟩),
          some modules, manifestErr⟩ := by
  simp [getModules, hok, getModulesLoop_all_ok]

/-- Witness for C10 on the sub-path module of the worked example: the clone
lands in /tmp/j/.terraform/modules/foo while the manifest's Dir is the
sub-path-adjusted .terraform/modules/foo/modules/foo. -/
theorem getModules_clones_at_root_witness :
    getModules (fun _ => none) none (("/tmp/j/.terraform/modules").data) entryC4
      = ⟨[⟨("https://example.com/org/repo").data,
            ("/tmp/j/.terraform/modules/foo").data, ("v2").data⟩],
          some [modC4], none⟩ :=
  (getModules_clones_at_root none (("/tmp/j/.terraform/modules").data)
      entryC4 [modC4] rfl).trans (by decide)

/-- Character list of the literal "https". -/
theorem https_data : ("https").data = ['h', 't', 't', 'p', 's'] := rfl

/-- Character list of the literal "://". -/
theorem sep_data : ("://").data = [':', '/', '/'] := rfl

/-- Character list of the literal "https://". -/
theorem httpsSep_data : ("https://").data = ['h', 't', 't', 'p', 's', ':', '/', '/'] := rfl

/-- firstIdx unfolding on a cons cell. -/
theorem firstIdx_cons (pat : List Char) (c : Char) (cs : List Char) :
    firstIdx pat (c :: cs) =
      if pat.isPrefixOf (c :: cs) then some 0
      else (firstIdx pat cs).map (· + 1) := rfl

/-- firstIdx unfolding on the empty list. -/
theorem firstIdx_nil (pat : List Char) :
    firstIdx pat [] = if pat.isEmpty then some 0 else none := rfl

/-- An occurrence-free text stays occurrence-free when a prefix is removed. -/
theorem firstIdx_none_append (pat t l : List Char)
    (h : firstIdx pat (t ++ l) = none) : firstIdx pat l = none := by
  induction t with
  | nil => exact h
  | cons c ts ih =>
    rw [List.cons_append, firstIdx_cons] at h
    by_cases hp : pat.isPrefixOf (c :: (ts ++ l))
    · simp [hp] at h
    · rw [if_neg hp] at h
      exact ih (by simpa using h)

/-- An occurrence-free text stays occurrence-free on any suffix. -/
theorem firstIdx_none_of_suffix (pat l l' : List Char)
    (hs : l' <:+ l) (h : firstIdx pat l = none) : firstIdx pat l' = none := by
  obtain ⟨t, rfl⟩ := hs
  exact firstIdx_none_append pat t l' h

/-- Whatever precedes the first occurrence of a nonempty pattern contains no
occurrence of it. -/
theorem firstIdx_take (pat l : List Char) (n : Nat) (hp : pat ≠ [])
    (h : firstIdx pat l = some n) : firstIdx pat (l.take n) = none := by
  induction l generalizing n with
  | nil =>
    rw [firstIdx_nil, if_neg (by simpa [List.isEmpty_iff] using hp)] at h
    exact absurd h (by simp)
  | cons c cs ih =>
    rw [firstIdx_cons] at h
    by_cases hpre : pat.isPrefixOf (c :: cs)
    · rw [if_pos hpre] at h
      obtain rfl : n = 0 := by
        have := h.symm
        simpa using this
      rw [List.take_zero, firstIdx_nil,
        if_neg (by simpa [List.isEmpty_iff] using hp)]
    · rw [if_neg hpre] at h
      cases hfi : firstIdx pat cs with
      | none => rw [hfi] at h; simp at h
      | some m =>
        rw [hfi] at h
        obtain rfl : n = m + 1 := by simpa using h.symm
        have hno : ¬ (pat.isPrefixOf (c :: cs.take m) = true) := by
          intro hcon
          apply hpre
          have h1 : pat <+: c :: cs.take m := List.isPrefixOf_iff_prefix.mp hcon
          have h2 : (c :: cs.take m) <+: (c :: cs) :=
            List.cons_prefix_cons.mpr ⟨rfl, List.take_prefix m cs⟩
          exact List.isPrefixOf_iff_prefix.mpr (h1.trans h2)
        rw [List.take_succ_cons, firstIdx_cons, if_neg hno, ih m hfi]
        rfl

/-- Every character of a host parsed from an authority-form URL precedes the
first '/' or '?'. -/
theorem parseURL_host_ok (s : List Char) :
    ∀ c ∈ (parseURL s).host, notSlashQ c = true := by
  unfold parseURL
  cases hfi : firstIdx (("://").data) s with
  | some n => exact fun c hc => List.mem_takeWhile_imp hc
  | none => intro c hc; simp at hc

/-- Every character of a parsed path precedes the query separator. -/
theorem parseURL_path_ok (s : List Char) :
    ∀ c ∈ (parseURL s).path, notQ c = true := by
  unfold parseURL
  cases hfi : firstIdx (("://").data) s with
  | some n => exact fun c hc => List.mem_takeWhile_imp hc
  | none => exact fun c hc => List.mem_takeWhile_imp hc

/-- Truncating at the first ".git" leaves a text free of ".git". -/
theorem firstIdx_truncGit (p : List Char) :
    firstIdx ((".git").data) (truncGit p) = none := by
  unfold truncGit
  cases h : firstIdx ((".git").data) p with
  | some n => exact firstIdx_take _ _ _ (by decide) h
  | none => exact h

/-- Truncation is the identity on a ".git"-free path. -/
theorem truncGit_of_none (p : List Char)
    (h : firstIdx ((".git").data) p = none) : truncGit p = p := by
  unfold truncGit
  rw [h]

/-- The truncated path is drawn from the original path's characters. -/
theorem truncGit_subset (p : List Char) : ∀ c ∈ truncGit p, c ∈ p := by
  unfold truncGit
  cases h : firstIdx ((".git").data) p with
  | some n => exact fun c hc => List.take_subset n p hc
  | none => exact fun c hc => hc

/-- A character that is neither '/' nor '?' is not '?'. -/
theorem notQ_of_notSlashQ (c : Char) (h : notSlashQ c = true) : notQ c = true := by
  simp [notSlashQ] at h
  simp [notQ, h.2]

/-- dropWhile over an all-satisfying prefix skips it entirely. -/
theorem dropWhile_append_all (p : Char → Bool) (xs ys : List Char)
    (h : ∀ a ∈ xs, p a = true) :
    (xs ++ ys).dropWhile p = ys.dropWhile p := by
  induction xs with
  | nil => rfl
  | cons c cs ih =>
    rw [List.cons_append, List.dropWhile_cons, if_pos (h c (by simp))]
    exact ih (fun a ha => h a (by simp [ha]))

/-- The query separator "://" of a normalized address is found at index 5. -/
theorem firstIdx_sep_https (body : List Char) :
    firstIdx (("://").data) (("https://").data ++ body) = some 5 := by
  show firstIdx [':', '/', '/']
    ('h' :: 't' :: 't' :: 'p' :: 's' :: ':' :: '/' :: '/' :: body) = some 5
  rw [firstIdx_cons, if_neg (by simp [List.isPrefixOf]),
      firstIdx_cons, if_neg (by simp [List.isPrefixOf]),
      firstIdx_cons, if_neg (by simp [List.isPrefixOf]),
      firstIdx_cons, if_neg (by simp [List.isPrefixOf]),
      firstIdx_cons, if_neg (by simp [List.isPrefixOf]),
      firstIdx_cons, if_pos (by simp [List.isPrefixOf])]
  rfl

/-- Parsing a normalized address splits it back into scheme "https", the
text before the first '/' or '?' as host, and the rest as path and query. -/
theorem parseURL_normalized (body : List Char) :
    parseURL (("https://").data ++ body)
      = ⟨("https").data, body.takeWhile notSlashQ,
         ((body.dropWhile notSlashQ).takeWhile notQ),
         (((body.dropWhile notSlashQ).dropWhile notQ).drop 1)⟩ := by
  unfold parseURL
  rw [firstIdx_sep_https]
  rfl

/-- refOf finds nothing in an empty query. -/
theorem refOf_nil : refOf [] = none := rfl

/-- Any address of the shape "https://" ++ body where body contains no '?'
and whose part from the first '/' on contains no ".git" is a fixed point of
normalizedSource, with no pinned revision. -/
theorem normalizedSource_fixed (body : List Char)
    (hq : ∀ c ∈ body, notQ c = true)
    (hgit : firstIdx ((".git").data) (body.dropWhile notSlashQ) = none) :
    normalizedSource (("https://").data ++ body)
      = (("https://").data ++ body, []) := by
  have hafter : ∀ c ∈ body.dropWhile notSlashQ, notQ c = true :=
    fun c hc => hq c ((List.dropWhile_suffix notSlashQ).subset hc)
  have hpath : (body.dropWhile notSlashQ).takeWhile notQ = body.dropWhile notSlashQ :=
    List.takeWhile_eq_self_iff.mpr hafter
  have hqnil : (body.dropWhile notSlashQ).dropWhile notQ = [] :=
    List.dropWhile_eq_nil_iff.mpr hafter
  unfold normalizedSource
  rw [parseURL_normalized]
  simp only [hpath, hqnil, List.drop_nil, refOf_nil, Option.getD_none]
  rw [truncGit_of_none _ hgit]
  unfold urlString
  simp [https_data, httpsSep_data, sep_data]

/-- Every output of normalizedSource has the normal-form shape:
"https://" followed by a '?'-free body whose path part is ".git"-free. -/
theorem normalizedSource_shape (source : List Char) :
    ∃ body,
      (normalizedSource source).1 = ("https://").data ++ body ∧
      (∀ c ∈ body, notQ c = true) ∧
      firstIdx ((".git").data) (body.dropWhile notSlashQ) = none := by
  refine ⟨(parseURL source).host ++ truncGit (parseURL source).path, ?_, ?_, ?_⟩
  · unfold normalizedSource urlString
    simp [https_data, httpsSep_data, sep_data]
  · intro c hc
    rcases List.mem_append.mp hc with h | h
    · exact notQ_of_notSlashQ _ (parseURL_host_ok source c h)
    · exact parseURL_path_ok source c (truncGit_subset _ c h)
  · rw [dropWhile_append_all _ _ _ (parseURL_host_ok source)]
    exact firstIdx_none_of_suffix _ _ _ (List.dropWhile_suffix _) (firstIdx_truncGit _)

/-- C8: module address normalization is idempotent: applying
normalizedSource to an already-normalized address (any first component of a
normalizedSource result) returns that address unchanged and no pinned
revision. -/
theorem normalizedSource_idempotent (source : List Char) :
    normalizedSource ((normalizedSource source).1)
      = ((normalizedSource source).1, []) := by
  obtain ⟨body, hb, hq, hgit⟩ := normalizedSource_shape source
  rw [hb]
  exact normalizedSource_fixed body hq hgit

/-- dropCR strips one trailing carriage return (bufio's ScanLines). -/
def dropCR (l : List Char) : List Char :=
  if l.getLast? == some '\r' then l.dropLast else l

/-- Line accumulator for scanLines; `acc` holds the current line reversed. -/
def splitLinesAux : List Char → List Char → List (List Char)
  | acc, [] => if acc.isEmpty then [] else [dropCR acc.reverse]
  | acc, c :: cs =>
    if c = '\n' then dropCR acc.reverse :: splitLinesAux [] cs
    else splitLinesAux (c :: acc) cs

/-- scanLines models bufio.Scanner with the default ScanLines split: tokens
are the newline-separated lines, each stripped of one trailing '\r'; a final
line without a newline is still a token; a trailing newline produces no
empty final token. -/
def scanLines (l : List Char) : List (List Char) := splitLinesAux [] l

/-- The process-level destination a wrapOutput goroutine writes to: the
`out io.Writer` argument of app.go 506, which readOutput (app.go 489-490)
sets to os.Stdout for the stdout scanner and os.Stderr for the stderr
scanner. -/
inductive Sink where
  | stdoutS
  | stderrS
deriving DecidableEq, Repr

/-- wrapOutput models `App.wrapOutput` (app.go 506-518) over the whole
stream one pipe carries, keeping the `out` writer it is handed: each
scanned line is emitted to that writer as one `fmt.Fprintf` write of
"[" ++ name ++ "]: " ++ line ++ "\n". -/
def wrapOutput (out : Sink) (name stream : List Char) : List (Sink × List Char) :=
  (scanLines stream).map
    (fun line => (out, ('[' :: name) ++ (("]: ").data) ++ line ++ ['\n']))

/-- readOutput models `App.readOutput` (app.go 480-504): the job's stdout
pipe is drained by a wrapOutput writing to the process's stdout and its
stderr pipe by one writing to the process's stderr; the two goroutines run
concurrently, so the job's total emission is an interleaving of the two
lists. -/
def readOutput (name stdoutStream stderrStream : List Char) :
    List (Sink × List Char) × List (Sink × List Char) :=
  (wrapOutput .stdoutS name stdoutStream, wrapOutput .stderrS name stderrStream)

/-- Interleaves xs ys zs: zs is an order-preserving merge of xs and ys.
The units being merged are whole emitted writes — each line is produced by
a single write call, which is the atomicity granted by the code. -/
inductive Interleaves {α : Type} : List α → List α → List α → Prop
  | nil : Interleaves [] [] []
  | left {x : α} {xs ys zs : List α} :
      Interleaves xs ys zs → Interleaves (x :: xs) ys (x :: zs)
  | right {y : α} {xs ys zs : List α} :
      Interleaves xs ys zs → Interleaves xs (y :: ys) (y :: zs)

/-- Every unit of a merge comes from one of the two merged streams. -/
theorem mem_of_interleaves {α : Type} {xs ys zs : List α}
    (h : Interleaves xs ys zs) : ∀ z ∈ zs, z ∈ xs ∨ z ∈ ys := by
  induction h with
  | nil => intro z hz; simp at hz
  | left h ih =>
    intro z hz
    rcases List.mem_cons.mp hz with rfl | hz
    · exact Or.inl (by simp)
    · rcases ih z hz with h1 | h2
      · exact Or.inl (by simp [h1])
      · exact Or.inr h2
  | right h ih =>
    intro z hz
    rcases List.mem_cons.mp hz with rfl | hz
    · exact Or.inr (by simp)
    · rcases ih z hz with h1 | h2
      · exact Or.inl h1
      · exact Or.inr (by simp [h2])

/-- C6 counterexample: a complete line read from the job subprocess's
stderr is rewritten to the process's own stderr, not its stdout (app.go
490): job "a"'s stderr line "oops" is emitted with the stderr sink, so the
claim's "emits that line to the process's own stdout" fails for stderr
lines. -/
theorem wrapOutput_stderr_sink_counterexample :
    (readOutput (("a").data) [] (("oops\n").data)).2
      = [(Sink.stderrS, (("[a]: oops\n").data))] ∧
    Sink.stderrS ≠ Sink.stdoutS :=
  ⟨rfl, by decide⟩

/-- C6 amended: every complete line a job's pipe carries is emitted to the
process's own stream of the same kind — stdout-pipe lines to the process's
stdout, stderr-pipe lines to its stderr — as one whole write prefixed with
the job's tag; and any whole-write interleaving of the emissions of
concurrent jobs "a" and "b" (each job merging its two pipe drains) contains
no fused line: every emitted line starts with the tag of job a or of job b. -/
theorem readOutput_sinks_and_tags (sa1 sa2 sb1 sb2 : List Char)
    (outA outB out : List (Sink × List Char))
    (hA : Interleaves (readOutput (("a").data) sa1 sa2).1
            (readOutput (("a").data) sa1 sa2).2 outA)
    (hB : Interleaves (readOutput (("b").data) sb1 sb2).1
            (readOutput (("b").data) sb1 sb2).2 outB)
    (hout : Interleaves outA outB out) :
    (∀ sink name stream, wrapOutput sink name stream
        = (scanLines stream).map
            (fun line => (sink, ('[' :: name) ++ (("]: ").data) ++ line ++ ['\n']))) ∧
    (∀ name stdoutStream stderrStream,
        (readOutput name stdoutStream stderrStream).1
            = wrapOutput .stdoutS name stdoutStream ∧
        (readOutput name stdoutStream stderrStream).2
            = wrapOutput .stderrS name stderrStream) ∧
    ∀ p ∈ out,
      ((("[a]: ").data).isPrefixOf p.2 ∨ (("[b]: ").data).isPrefixOf p.2) := by
  refine ⟨fun _ _ _ => rfl, fun _ _ _ => ⟨rfl, rfl⟩, ?_⟩
  intro p hp
  have hjob : p ∈ outA ∨ p ∈ outB := mem_of_interleaves hout p hp
  rcases hjob with hin | hin
  · left
    rcases mem_of_interleaves hA p hin with hm | hm <;>
    · obtain ⟨l, hl, rfl⟩ := List.mem_map.mp hm
      exact List.isPrefixOf_iff_prefix.mpr ⟨l ++ ['\n'], by simp⟩
  · right
    rcases mem_of_interleaves hB p hin with hm | hm <;>
    · obtain ⟨l, hl, rfl⟩ := List.mem_map.mp hm
      exact List.isPrefixOf_iff_prefix.mpr ⟨l ++ ['\n'], by simp⟩

/-- A concrete merge of job "a"'s two pipe drains: stdout "x\ny", stderr
"e". -/
def muxOutA : List (Sink × List Char) :=
  [(Sink.stdoutS, (("[a]: x\n").data)), (Sink.stderrS, (("[a]: e\n").data)),
   (Sink.stdoutS, (("[a]: y\n").data))]

/-- A concrete merge of job "b"'s two pipe drains: stdout "z", stderr
empty. -/
def muxOutB : List (Sink × List Char) :=
  [(Sink.stdoutS, (("[b]: z\n").data))]

/-- A concrete whole-write merge of the two jobs' emissions. -/
def muxMerged : List (Sink × List Char) :=
  [(Sink.stdoutS, (("[a]: x\n").data)), (Sink.stdoutS, (("[b]: z\n").data)),
   (Sink.stderrS, (("[a]: e\n").data)), (Sink.stdoutS, (("[a]: y\n").data))]

/-- Witness for C6's amended theorem at concrete streams and a concrete
interleaving: a merged write carries one of the two job tags. -/
theorem readOutput_sinks_and_tags_witness :
    (("[a]: ").data).isPrefixOf (Sink.stdoutS, (("[a]: x\n").data)).2 ∨
    (("[b]: ").data).isPrefixOf (Sink.stdoutS, (("[a]: x\n").data)).2 :=
  (readOutput_sinks_and_tags (("x\ny").data) (("e").data) (("z").data) []
      muxOutA muxOutB muxMerged
      (Interleaves.left (Interleaves.right (Interleaves.left Interleaves.nil)))
      (Interleaves.left Interleaves.nil)
      (Interleaves.left (Interleaves.right
        (Interleaves.left (Interleaves.left Interleaves.nil))))).2.2
    (Sink.stdoutS, (("[a]: x\n").data)) (by simp [muxMerged])

/-- JSON string escaping as encoding/json performs it for the characters
arising here (quote, backslash and common control characters; the encoder's
additional HTML escaping is outside the modelled character set). -/
def jsonEscapeChar (c : Char) : List Char :=
  if c = '"' then ['\\', '"']
  else if c = '\\' then ['\\', '\\']
  else if c = '\n' then ['\\', 'n']
  else if c = '\t' then ['\\', 't']
  else if c = '\r' then ['\\', 'r']
  else [c]

/-- A JSON-quoted string. -/
def jsonQuote (s : String) : String :=
  ⟨'"' :: (s.data.flatMap jsonEscapeChar ++ ['"'])⟩

/-- Zero-padded six-digit rendering of the fractional part. -/
def padLeft6 (n : Nat) : String :=
  let s := toString n
  ⟨List.replicate (6 - s.length) '0' ++ s.data⟩

/-- Fixed six-decimal rendering (Go fmt %f) of the rational mantissa/10^6
standing in for a float64. -/
def renderFixed6 (m : Int) : String :=
  (if m < 0 then "-" else "") ++ toString (m.natAbs / 1000000) ++ "."
    ++ padLeft6 (m.natAbs % 1000000)

/-- Key-ordered insertion (encoding/json sorts map keys). -/
def insertPair (f : String × String) : List (String × String) → List (String × String)
  | [] => [f]
  | g :: gs => if f.1 ≤ g.1 then f :: g :: gs else g :: insertPair f gs

/-- Insertion sort of rendered fields by key. -/
def sortPairs : List (String × String) → List (String × String)
  | [] => []
  | f :: fs => insertPair f (sortPairs fs)

/-- Comma-joined `"key":value` renderings of an object's fields. -/
def renderFields : List (String × String) → String
  | [] => ""
  | [(k, j)] => jsonQuote k ++ ":" ++ j
  | (k, j) :: rest => jsonQuote k ++ ":" ++ j ++ "," ++ renderFields rest

mutual

/-- jsonEncode models encoding/json.Marshal on the modelled values: object
keys are sorted; the float rendering shares the fixed-decimal model of the
rational stand-in. -/
def jsonEncode : GoValue → String
  | .boolV b => if b then ("true") else ("false")
  | .strV s => jsonQuote s
  | .intV i => toString i
  | .floatV m => renderFixed6 m
  | .objV fs => ("\x7b") ++ renderFields (sortPairs (jsonFields fs)) ++ ("\x7d")

/-- The rendered (key, encoded value) pairs of an object. -/
def jsonFields : List (String × GoValue) → List (String × String)
  | [] => []
  | (k, v) :: rest => (k, jsonEncode v) :: jsonFields rest

end

/-- Rendering of one variable value by getEnv's type switch (app.go
420-443): booleans via %t, strings verbatim, int64 via %d (base-10, no
decimal point), float64 via %f (six fixed decimals), nested objects as
their JSON encoding.  Values of dynamic types outside the switch are
skipped by the code and are not representable in GoValue. -/
def renderValue : GoValue → String
  | .boolV b => if b then ("true") else ("false")
  | .strV s => s
  | .intV i => toString i
  | .floatV m => renderFixed6 m
  | .objV fs => jsonEncode (.objV fs)

/-- getEnv embeds `getEnv` (app.go 420-443): one "k=v" entry per variable.
Go map iteration order is unspecified; the association list order stands in
for it and claims use only membership. -/
def getEnv (m : List (String × GoValue)) : List String :=
  m.map (fun kv => kv.1 ++ "=" ++ renderValue kv.2)

/-- The backend.tf content createBackend writes (app.go 378-396): the raw
template applied to bucket, job name, region and the session credential
triple; the state key is the job name followed by ".tfstate".  The literal
chunks below concatenate to exactly the Go raw-string template. -/
def createBackendContent (bucket name region access secret token : List Char) :
    List Char :=
  (("terraform \x7b\n\t\t\tbackend \"s3\" \x7b\n\t\t\t\tbucket     = \"").data)
    ++ bucket ++ (("\"\n\t\t\t\t").data)
    ++ (("key        = \"").data) ++ name ++ ((".tfstate\"").data)
    ++ (("\n\t\t\t\tregion     = \"").data) ++ region
    ++ (("\"\n\t\t\t\taccess_key = \"").data) ++ access
    ++ (("\"\n\t\t\t\tsecret_key = \"").data) ++ secret
    ++ (("\"\n\t\t\t\ttoken      = \"").data) ++ token
    ++ (("\"\n\t\t\t\x7d\n\t\x7d").data)

/-- jsonDecodeNumber models the type under which a JSON integer reaches
getEnv.  Request.Variables (map[string]interface{}) is populated only by
encoding/json unmarshalling — lambda.Start(a.Run) decodes the incoming
payload and dispatch (app.go 119-136) re-marshals the overflow for the next
invocation — and encoding/json decodes every JSON number into interface{}
as float64; so a JSON integer n arrives as the float64 stand-in with
mantissa n * 10^6. -/
def jsonDecodeNumber (n : Int) : GoValue := .floatV (n * 1000000)

/-- C7 counterexample: the variables received as JSON
(enabled = true, count = 3) reach getEnv as bool and float64, and the
float64 case's %f rendering emits "count=3.000000" — the entry "count=3"
with no decimal point is absent from the assembled environment. -/
theorem getEnv_json_count_counterexample :
    getEnv [("enabled", .boolV true), ("count", jsonDecodeNumber 3)]
      = [("enabled=true"), ("count=3.000000")] ∧
    (("count=3")
        ∉ getEnv [("enabled", .boolV true), ("count", jsonDecodeNumber 3)]) := by
  decide

/-- C7 amended: the environment assembled for the JSON variables
enabled = true and count = 3 contains the entries "enabled=true" and
"count=3.000000" — the JSON number decodes as float64 and is rendered by
the %f case with six fixed decimals; only an in-process int64 value, which
the program's JSON-only ingestion never produces, would render as
"count=3" — whatever entries (credentials, cache, log level, home) are
appended after it; and the generated backend file's state key equals the
job name followed by ".tfstate", which for a request named "acct-1" reads
acct-1.tfstate. -/
theorem env_json_entries_and_backend_key (rest : List String)
    (bucket name region access secret token : List Char) :
    (("enabled=true")
        ∈ getEnv [("enabled", .boolV true), ("count", jsonDecodeNumber 3)] ++ rest) ∧
    (("count=3.000000")
        ∈ getEnv [("enabled", .boolV true), ("count", jsonDecodeNumber 3)] ++ rest) ∧
    (("count=3")
        ∉ getEnv [("enabled", .boolV true), ("count", jsonDecodeNumber 3)]) ∧
    (∃ pre post,
      createBackendContent bucket name region access secret token
        = pre ++ ((("key        = \"").data) ++ name ++ ((".tfstate\"").data)) ++ post) ∧
    ((("key        = \"").data) ++ (("acct-1").data) ++ ((".tfstate\"").data)
        = (("key        = \"acct-1.tfstate\"").data)) := by
  refine ⟨?_, ?_, by decide, ⟨?_, ?_, ?_⟩, by decide⟩
  · exact List.mem_append_left _ (by decide)
  · exact List.mem_append_left _ (by decide)
  · exact (("terraform \x7b\n\t\t\tbackend \"s3\" \x7b\n\t\t\t\tbucket     = \"").data)
      ++ bucket ++ (("\"\n\t\t\t\t").data)
  · exact (("\n\t\t\t\tregion     = \"").data) ++ region
      ++ (("\"\n\t\t\t\taccess_key = \"").data) ++ access
      ++ (("\"\n\t\t\t\tsecret_key = \"").data) ++ secret
      ++ (("\"\n\t\t\t\ttoken      = \"").data) ++ token
      ++ (("\"\n\t\t\t\x7d\n\t\x7d").data)
  · simp [createBackendContent, List.append_assoc]

end ATE
